import Mathlib

/-!
Shallow embedding of the RomFS reader of nxdumptool (src/source/romfs.h) and
proofs of the specification's claims about it.

Machine integers are modelled as `Nat`. A `u32` function parameter is reduced
with `% 2^32` at the point where the C code receives it; additions performed in
`size_t`/`u64` arithmetic on the target (aarch64, 64-bit `size_t`) are plain
`Nat` additions whenever the operands are small enough that no 64-bit wraparound
can occur, which is noted where relied upon. NULL pointers are modelled with
`Option`.
-/

/-- ROMFS_OLD_HEADER_SIZE (src/source/romfs.h line 25): size of the legacy
NCA0 RomFS header. -/
def ROMFS_OLD_HEADER_SIZE : Nat := 0x28

/-- ROMFS_HEADER_SIZE (src/source/romfs.h line 26): size of the current
NCA2/NCA3 RomFS header. -/
def ROMFS_HEADER_SIZE : Nat := 0x50

/-- ROMFS_VOID_ENTRY (src/source/romfs.h line 28): sentinel offset meaning
"no entry" / end of a sibling or child chain. -/
def ROMFS_VOID_ENTRY : Nat := 0xFFFFFFFF

/-- Fixed-record size of RomFileSystemDirectoryEntry (src/source/romfs.h lines
70-78): six u32 fields followed by a flexible char array, hence
sizeof = 6 * 4 = 24 bytes on the target. -/
def sizeof_RomFileSystemDirectoryEntry : Nat := 24

/-- Fixed-record size of RomFileSystemFileEntry (src/source/romfs.h lines
81-89): u32, u32, u64, u64, u32, u32 followed by a flexible char array; with
8-byte alignment of the u64 members sizeof = 32 bytes on the target. -/
def sizeof_RomFileSystemFileEntry : Nat := 32

/-- RomFileSystemDirectoryEntry (src/source/romfs.h lines 70-78): the fixed
header of a directory entry. The variable-length name that follows is kept
abstract; only `name_length` matters to the claims. -/
structure RomFileSystemDirectoryEntry where
  parent_offset : Nat
  next_offset : Nat
  directory_offset : Nat
  file_offset : Nat
  bucket_offset : Nat
  name_length : Nat
deriving DecidableEq, Repr

/-- RomFileSystemFileEntry (src/source/romfs.h lines 81-89): the fixed header
of a file entry. `offset` and `size` are the 64-bit data offset/size. -/
structure RomFileSystemFileEntry where
  parent_offset : Nat
  next_offset : Nat
  offset : Nat
  size : Nat
  bucket_offset : Nat
  name_length : Nat
deriving DecidableEq, Repr

/-- RomFileSystemContext (src/source/romfs.h lines 91-103), restricted to the
fields the embedded operations touch. The two table pointers are modelled as
`Option Nat` base addresses (`none` = NULL). The hash-info and section-context
pointers, which none of the claims inspect beyond being zeroed on free, are
summarised by `aux_null : Bool` (true when all of them are NULL). -/
structure RomFileSystemContext where
  offset : Nat
  size : Nat
  dir_table_size : Nat
  dir_table : Option Nat
  file_table_size : Nat
  file_table : Option Nat
  body_offset : Nat
  aux_null : Bool
deriving DecidableEq, Repr

/-- The all-zero RomFileSystemContext produced by
`memset(ctx, 0, sizeof(RomFileSystemContext))` (src/source/romfs.h line 114). -/
def zeroedRomFileSystemContext : RomFileSystemContext :=
  { offset := 0, size := 0, dir_table_size := 0, dir_table := none,
    file_table_size := 0, file_table := none, body_offset := 0, aux_null := true }

/-- romfsFreeContext (src/source/romfs.h lines 109-115). The argument is the
pointed-to context (`none` = NULL pointer). Returns the context state after the
call together with the list of buffer addresses passed to `free`, in order. -/
def romfsFreeContext (ctx : Option RomFileSystemContext) :
    Option RomFileSystemContext × List Nat :=
  match ctx with
  | none => (none, [])
  | some c =>
      let freed_dir : List Nat := match c.dir_table with
        | some p => [p]
        | none => []
      let freed_file : List Nat := match c.file_table with
        | some p => [p]
        | none => []
      (some zeroedRomFileSystemContext, freed_dir ++ freed_file)

/-- romfsGetDirectoryEntry (src/source/romfs.h lines 131-135). The context
argument is `none` for a NULL context pointer. The u32 `dir_entry_offset`
parameter is reduced mod 2^32 on entry; the C comparison
`dir_entry_offset + sizeof(RomFileSystemDirectoryEntry) > ctx->dir_table_size`
promotes the u32 to 64-bit `size_t`, so `o % 2^32 + 24 < 2^64` never wraps and
plain `Nat` addition is faithful. The returned view is the address
`table_base + offset` (`none` = NULL). -/
def romfsGetDirectoryEntry (ctx : Option RomFileSystemContext)
    (dir_entry_offset : Nat) : Option Nat :=
  match ctx with
  | none => none
  | some c =>
      match c.dir_table with
      | none => none
      | some base =>
          if dir_entry_offset % 2 ^ 32 + sizeof_RomFileSystemDirectoryEntry >
              c.dir_table_size then none
          else some (base + dir_entry_offset % 2 ^ 32)

/-- romfsGetFileEntry (src/source/romfs.h lines 137-141). Same modelling as
`romfsGetDirectoryEntry`, with the 32-byte file-entry fixed record. -/
def romfsGetFileEntry (ctx : Option RomFileSystemContext)
    (file_entry_offset : Nat) : Option Nat :=
  match ctx with
  | none => none
  | some c =>
      match c.file_table with
      | none => none
      | some base =>
          if file_entry_offset % 2 ^ 32 + sizeof_RomFileSystemFileEntry >
              c.file_table_size then none
          else some (base + file_entry_offset % 2 ^ 32)

/-- Modelled from the spec (section 4.3): the caller-side name bounds check
`offset + fixed_record_size + name_length ≤ table_size` that must be performed
before reading an entry name; the check itself is not a function in
src/source/romfs.h, it is the condition the spec requires of callers. -/
def romfsNameBoundsCheck (record_size entry_offset name_length table_size : Nat) :
    Bool :=
  entry_offset + record_size + name_length ≤ table_size

/-- Error taxonomy of the spec (section 7). -/
inductive RomFsError where
  | FormatError
  | BoundsError
  | RangeError
  | IOError
  | TraversalError
deriving DecidableEq, Repr

/-- Which of the two header layouts was recognised at parse time. -/
inductive RomFsLayout where
  | old_format
  | cur_format
deriving DecidableEq, Repr

/-- RomFileSystemInformation (src/source/romfs.h lines 45-56): the normalized
64-bit-wide header shape exposing all table offsets/sizes and the body offset. -/
structure RomFileSystemInformation where
  header_size : Nat
  directory_bucket_offset : Nat
  directory_bucket_size : Nat
  directory_entry_offset : Nat
  directory_entry_size : Nat
  file_bucket_offset : Nat
  file_bucket_size : Nat
  file_entry_offset : Nat
  file_entry_size : Nat
  body_offset : Nat
deriving DecidableEq, Repr

/-- Little-endian 32-bit read from a byte oracle; each byte is reduced mod 256. -/
def readU32LE (b : Nat → Nat) (off : Nat) : Nat :=
  b off % 256 + b (off + 1) % 256 * 2 ^ 8 + b (off + 2) % 256 * 2 ^ 16 +
    b (off + 3) % 256 * 2 ^ 24

/-- Little-endian 64-bit read from a byte oracle. -/
def readU64LE (b : Nat → Nat) (off : Nat) : Nat :=
  readU32LE b off + readU32LE b (off + 4) * 2 ^ 32

/-- Modelled from the spec: the header-parsing step of `romfsInitializeContext`
(declared at src/source/romfs.h line 106; its .c implementation is not under
src/). Per spec section 4.1: read the first ROMFS_HEADER_SIZE bytes of the
region; if the leading 32-bit header-size field equals ROMFS_OLD_HEADER_SIZE,
parse the legacy layout (all fields u32, per RomFileSystemInformationOld at
src/source/romfs.h lines 31-42); otherwise, if the leading 64-bit header-size
field equals ROMFS_HEADER_SIZE, parse the current layout (all fields u64);
any other value is a FormatError. The result is tagged with the layout that
was parsed. -/
def romfsParseHeader (b : Nat → Nat) :
    Except RomFsError (RomFsLayout × RomFileSystemInformation) :=
  if readU32LE b 0 = ROMFS_OLD_HEADER_SIZE then
    .ok (.old_format,
      { header_size := readU32LE b 0,
        directory_bucket_offset := readU32LE b 4,
        directory_bucket_size := readU32LE b 8,
        directory_entry_offset := readU32LE b 12,
        directory_entry_size := readU32LE b 16,
        file_bucket_offset := readU32LE b 20,
        file_bucket_size := readU32LE b 24,
        file_entry_offset := readU32LE b 28,
        file_entry_size := readU32LE b 32,
        body_offset := readU32LE b 36 })
  else if readU64LE b 0 = ROMFS_HEADER_SIZE then
    .ok (.cur_format,
      { header_size := readU64LE b 0,
        directory_bucket_offset := readU64LE b 8,
        directory_bucket_size := readU64LE b 16,
        directory_entry_offset := readU64LE b 24,
        directory_entry_size := readU64LE b 32,
        file_bucket_offset := readU64LE b 40,
        file_bucket_size := readU64LE b 48,
        file_entry_offset := readU64LE b 56,
        file_entry_size := readU64LE b 64,
        body_offset := readU64LE b 72 })
  else .error .FormatError

/-- One delegated byte-range read issued to the Raw Section Reader, recorded
as (region-relative offset, length). -/
structure ReadCall where
  off : Nat
  len : Nat
deriving DecidableEq, Repr

/-- Modelled from the spec: `romfsReadFileEntryData` (declared at
src/source/romfs.h line 121; its .c implementation is not under src/). Per
spec section 4.4: verify `local_offset + read_size ≤ entry.size`, rejecting
with RangeError and performing no delegated read otherwise; on success read
`read_size` bytes at absolute region position
`region_offset + body_offset + entry.offset + local_offset` via the Raw
Section Reader, modelled as the byte oracle `reader`. The second component is
the list of delegated reads performed. -/
def romfsReadFileEntryData (reader : Nat → Nat) (ctx : RomFileSystemContext)
    (file_entry : RomFileSystemFileEntry) (read_size local_offset : Nat) :
    Except RomFsError (List Nat) × List ReadCall :=
  if local_offset + read_size ≤ file_entry.size then
    let abs := ctx.offset + ctx.body_offset + file_entry.offset + local_offset
    (.ok ((List.range read_size).map fun i => reader (abs + i)),
      [{ off := abs, len := read_size }])
  else
    (.error .RangeError, [])

/-- The two loaded entry tables owned by a successfully initialized context. -/
structure RomFsLoadedTables where
  dir_table : List Nat
  file_table : List Nat
deriving DecidableEq, Repr

/-- Modelled from the spec: the table-loading step of `romfsInitializeContext`
(declared at src/source/romfs.h line 106; its .c implementation is not under
src/). Per spec section 4.2: a zero directory-entry table size is a
FormatError detected before any delegated read; otherwise the directory table
and then the file table are read via the Raw Section Reader (modelled as
`reader`, returning `none` on I/O failure), a zero file-table size being
legal. Any failure returns an error and no tables (no partially populated
context); the second component records the delegated reads in order. -/
def romfsLoadTables (reader : Nat → Nat → Option (List Nat))
    (hdr : RomFileSystemInformation) :
    Except RomFsError RomFsLoadedTables × List ReadCall :=
  if hdr.directory_entry_size = 0 then
    (.error .FormatError, [])
  else
    let dirCall : ReadCall :=
      { off := hdr.directory_entry_offset, len := hdr.directory_entry_size }
    match reader hdr.directory_entry_offset hdr.directory_entry_size with
    | none => (.error .IOError, [dirCall])
    | some db =>
        let fileCall : ReadCall :=
          { off := hdr.file_entry_offset, len := hdr.file_entry_size }
        match reader hdr.file_entry_offset hdr.file_entry_size with
        | none => (.error .IOError, [dirCall, fileCall])
        | some fb => (.ok { dir_table := db, file_table := fb }, [dirCall, fileCall])

/-- Modelled from the spec: the loaded entry tables as the Size Accountant sees
them through the Entry Resolver (spec sections 4.3 and 4.5; the .c
implementations of `romfsGetTotalDataSize` and `romfsGetDirectoryDataSize`,
declared at src/source/romfs.h lines 124 and 127, are not under src/).
`dirs o` / `files o` is the entry resolved at table offset `o`, `none` exactly
when the resolver's bounds check rejects `o`. -/
structure RomFsTables where
  dirs : Nat → Option RomFileSystemDirectoryEntry
  files : Nat → Option RomFileSystemFileEntry

mutual

/-- Modelled from the spec: `romfsGetDirectoryDataSize` (declared at
src/source/romfs.h line 127; its .c implementation is not under src/). Per
spec section 4.5: resolve the directory entry at `off`, sum the sizes of the
files on its `file_offset` sibling chain, add the recursive sums of the child
directories on its `directory_offset` sibling chain. `fuel` bounds the
traversal depth so the function is total; `none` means the computation
aborted (a resolution failed, or the fuel ran out on a cyclic archive) and no
partial sum is produced. -/
def romfsDirDataSize (t : RomFsTables) : Nat → Nat → Option Nat
  | 0, _ => none
  | fuel + 1, off =>
      match t.dirs off with
      | none => none
      | some d =>
          match romfsFileChainDataSize t fuel d.file_offset with
          | none => none
          | some fs =>
              match romfsDirChainDataSize t fuel d.directory_offset with
              | none => none
              | some ds => some (fs + ds)

/-- Modelled from the spec (section 4.5): sum of `size` over the sibling chain
of file entries starting at `off`, terminated by ROMFS_VOID_ENTRY. -/
def romfsFileChainDataSize (t : RomFsTables) : Nat → Nat → Option Nat
  | 0, _ => none
  | fuel + 1, off =>
      if off = ROMFS_VOID_ENTRY then some 0
      else
        match t.files off with
        | none => none
        | some fe =>
            match romfsFileChainDataSize t fuel fe.next_offset with
            | none => none
            | some rest => some (fe.size + rest)

/-- Modelled from the spec (section 4.5): sum of subtree sizes over the sibling
chain of directory entries starting at `off`, terminated by ROMFS_VOID_ENTRY. -/
def romfsDirChainDataSize (t : RomFsTables) : Nat → Nat → Option Nat
  | 0, _ => none
  | fuel + 1, off =>
      if off = ROMFS_VOID_ENTRY then some 0
      else
        match t.dirs off with
        | none => none
        | some d =>
            match romfsDirDataSize t fuel off with
            | none => none
            | some s =>
                match romfsDirChainDataSize t fuel d.next_offset with
                | none => none
                | some rest => some (s + rest)

end

/-- Modelled from the spec: `romfsGetTotalDataSize` (declared at
src/source/romfs.h line 124; its .c implementation is not under src/). Per
spec sections 3 and 4.5, the total extracted size is the directory data size
of the root directory, conventionally the entry at offset 0. -/
def romfsTotalDataSize (t : RomFsTables) (fuel : Nat) : Option Nat :=
  romfsDirDataSize t fuel 0

mutual

/-- Abstract directory tree of a well-formed acyclic archive: the sizes of the
files directly in the directory, and the forest of child directories. -/
inductive RomTree where
  | node : List Nat → RomForest → RomTree

/-- A finite list of abstract directory trees (the child-directory chain). -/
inductive RomForest where
  | nil : RomForest
  | cons : RomTree → RomForest → RomForest

end

mutual

/-- Sum of the sizes of every file in the tree. -/
def romTreeSum : RomTree → Nat
  | .node fs f => fs.sum + romForestSum f

/-- Sum of the sizes of every file in the forest. -/
def romForestSum : RomForest → Nat
  | .nil => 0
  | .cons tr f => romTreeSum tr + romForestSum f

end

/-- The file sibling chain starting at `off` carries exactly the sizes `fs`. -/
inductive RepFileChain : RomFsTables → Nat → List Nat → Prop where
  | nil : ∀ (t : RomFsTables), RepFileChain t ROMFS_VOID_ENTRY []
  | cons : ∀ (t : RomFsTables) (off : Nat) (fe : RomFileSystemFileEntry)
      (rest : List Nat),
      off ≠ ROMFS_VOID_ENTRY →
      t.files off = some fe →
      RepFileChain t fe.next_offset rest →
      RepFileChain t off (fe.size :: rest)

mutual

/-- The directory entry at table offset `off` represents the abstract tree
`tr`: it resolves, its file chain carries exactly the file sizes of `tr`, and
its child-directory chain represents the forest of `tr`. A derivation exists
exactly for well-formed acyclic (finite) subtrees. -/
inductive RepDir : RomFsTables → Nat → RomTree → Prop where
  | mk : ∀ (t : RomFsTables) (off : Nat) (d : RomFileSystemDirectoryEntry)
      (fs : List Nat) (f : RomForest),
      t.dirs off = some d →
      RepFileChain t d.file_offset fs →
      RepDirChain t d.directory_offset f →
      RepDir t off (.node fs f)

/-- The directory sibling chain starting at `off` represents the forest `f`. -/
inductive RepDirChain : RomFsTables → Nat → RomForest → Prop where
  | nil : ∀ (t : RomFsTables), RepDirChain t ROMFS_VOID_ENTRY .nil
  | cons : ∀ (t : RomFsTables) (off : Nat) (d : RomFileSystemDirectoryEntry)
      (tr : RomTree) (rest : RomForest),
      off ≠ ROMFS_VOID_ENTRY →
      t.dirs off = some d →
      RepDir t off tr →
      RepDirChain t d.next_offset rest →
      RepDirChain t off (.cons tr rest)

end

/-- A context with 2^33-byte entry tables, large enough that the sentinel
offset passes the fixed-record bounds check. -/
def sentinelCtx : RomFileSystemContext :=
  { offset := 0, size := 2 ^ 34, dir_table_size := 2 ^ 33, dir_table := some 0,
    file_table_size := 2 ^ 33, file_table := some 0, body_offset := 0,
    aux_null := true }

/-- A small initialized context: a 24-byte directory table at address 1000 and
a 32-byte file table at address 2000. -/
def boundsCtx : RomFileSystemContext :=
  { offset := 0, size := 4096, dir_table_size := 24, dir_table := some 1000,
    file_table_size := 32, file_table := some 2000, body_offset := 512,
    aux_null := true }

/-- Header bytes of a legacy-layout region: leading u32 equals
ROMFS_OLD_HEADER_SIZE. -/
def legacyHeaderBytes : Nat → Nat := fun i => if i = 0 then 0x28 else 0

/-- Header bytes of a current-layout region: leading u64 equals
ROMFS_HEADER_SIZE. -/
def currentHeaderBytes : Nat → Nat := fun i => if i = 0 then 0x50 else 0

/-- Header bytes whose header-size field matches neither layout constant. -/
def zeroHeaderBytes : Nat → Nat := fun _ => 0

/-- A Raw Section Reader that always succeeds, returning zero bytes. -/
def zeroReader : Nat → Nat → Option (List Nat) := fun _ len =>
  some (List.replicate len 0)

/-- A normalized header with a 0-sized directory-entry table. -/
def zeroDirHdr : RomFileSystemInformation :=
  { header_size := 0x50, directory_bucket_offset := 0x50,
    directory_bucket_size := 4, directory_entry_offset := 0x54,
    directory_entry_size := 0, file_bucket_offset := 0x54,
    file_bucket_size := 4, file_entry_offset := 0x58, file_entry_size := 0x20,
    body_offset := 0x100 }

/-- A normalized header with a nonzero directory-entry table and a 0-sized
file-entry table (an archive with no files). -/
def noFilesHdr : RomFileSystemInformation :=
  { header_size := 0x50, directory_bucket_offset := 0x50,
    directory_bucket_size := 4, directory_entry_offset := 0x54,
    directory_entry_size := 0x18, file_bucket_offset := 0x6C,
    file_bucket_size := 4, file_entry_offset := 0x70, file_entry_size := 0,
    body_offset := 0x100 }

/-- A resolved file entry of declared size 10 at data offset 0x40. -/
def sampleFileEntry : RomFileSystemFileEntry :=
  { parent_offset := 0, next_offset := ROMFS_VOID_ENTRY, offset := 0x40,
    size := 10, bucket_offset := 0, name_length := 1 }

/-- Root directory of the sample archive: files at table offset 64, child
directory chain at table offset 100. -/
def sampleRootDir : RomFileSystemDirectoryEntry :=
  { parent_offset := 0, next_offset := ROMFS_VOID_ENTRY,
    directory_offset := 100, file_offset := 64, bucket_offset := 0,
    name_length := 0 }

/-- Child directory of the sample archive: one file at table offset 128, no
subdirectories, no further siblings. -/
def sampleChildDir : RomFileSystemDirectoryEntry :=
  { parent_offset := 0, next_offset := ROMFS_VOID_ENTRY,
    directory_offset := ROMFS_VOID_ENTRY, file_offset := 128,
    bucket_offset := 0, name_length := 5 }

/-- First file of the sample root directory (size 10, sibling at 96). -/
def sampleFileA : RomFileSystemFileEntry :=
  { parent_offset := 0, next_offset := 96, offset := 0, size := 10,
    bucket_offset := 0, name_length := 1 }

/-- Second file of the sample root directory (size 20, end of chain). -/
def sampleFileB : RomFileSystemFileEntry :=
  { parent_offset := 0, next_offset := ROMFS_VOID_ENTRY, offset := 16,
    size := 20, bucket_offset := 0, name_length := 1 }

/-- The only file of the sample child directory (size 5, end of chain). -/
def sampleFileC : RomFileSystemFileEntry :=
  { parent_offset := 100, next_offset := ROMFS_VOID_ENTRY, offset := 48,
    size := 5, bucket_offset := 0, name_length := 1 }

/-- Resolved-entry tables of the sample archive. -/
def sampleTables : RomFsTables where
  dirs := fun o =>
    if o = 0 then some sampleRootDir
    else if o = 100 then some sampleChildDir
    else none
  files := fun o =>
    if o = 64 then some sampleFileA
    else if o = 96 then some sampleFileB
    else if o = 128 then some sampleFileC
    else none

/-- Abstract tree of the sample archive: root holds files of sizes 10 and 20
and one child directory holding a file of size 5. -/
def sampleTree : RomTree :=
  .node [10, 20] (.cons (.node [5] .nil) .nil)

/-- Tables on which every resolution fails (both tables empty/out of bounds
everywhere). -/
def emptyTables : RomFsTables where
  dirs := fun _ => none
  files := fun _ => none

/-- Unfolding of `romfsDirDataSize` at positive fuel when every step succeeds. -/
theorem romfsDirDataSize_succ_eq (t : RomFsTables) (fuel off : Nat)
    (d : RomFileSystemDirectoryEntry) (fs ds : Nat)
    (hd : t.dirs off = some d)
    (hf : romfsFileChainDataSize t fuel d.file_offset = some fs)
    (hc : romfsDirChainDataSize t fuel d.directory_offset = some ds) :
    romfsDirDataSize t (fuel + 1) off = some (fs + ds) := by
  simp [romfsDirDataSize, hd, hf, hc]

/-- Inversion of a successful `romfsDirDataSize` computation. -/
theorem romfsDirDataSize_succ_inv (t : RomFsTables) (fuel off s : Nat)
    (h : romfsDirDataSize t (fuel + 1) off = some s) :
    ∃ d fs ds, t.dirs off = some d ∧
      romfsFileChainDataSize t fuel d.file_offset = some fs ∧
      romfsDirChainDataSize t fuel d.directory_offset = some ds ∧
      s = fs + ds := by
  simp only [romfsDirDataSize] at h
  cases hd : t.dirs off with
  | none => simp only [hd] at h; exact absurd h (by simp)
  | some d =>
      simp only [hd] at h
      cases hf : romfsFileChainDataSize t fuel d.file_offset with
      | none => simp only [hf] at h; exact absurd h (by simp)
      | some fs =>
          simp only [hf] at h
          cases hc : romfsDirChainDataSize t fuel d.directory_offset with
          | none => simp only [hc] at h; exact absurd h (by simp)
          | some ds =>
              simp only [hc] at h
              simp only [Option.some_inj] at h
              exact ⟨d, fs, ds, rfl, hf, hc, h.symm⟩

/-- A file chain starting at the sentinel sums to 0. -/
theorem romfsFileChainDataSize_void (t : RomFsTables) (fuel : Nat) :
    romfsFileChainDataSize t (fuel + 1) ROMFS_VOID_ENTRY = some 0 := by
  simp [romfsFileChainDataSize]

/-- Unfolding of `romfsFileChainDataSize` at a non-sentinel offset when every
step succeeds. -/
theorem romfsFileChainDataSize_succ_eq (t : RomFsTables) (fuel off : Nat)
    (fe : RomFileSystemFileEntry) (rest : Nat)
    (hne : off ≠ ROMFS_VOID_ENTRY) (hfe : t.files off = some fe)
    (hr : romfsFileChainDataSize t fuel fe.next_offset = some rest) :
    romfsFileChainDataSize t (fuel + 1) off = some (fe.size + rest) := by
  simp [romfsFileChainDataSize, hne, hfe, hr]

/-- Inversion of a successful `romfsFileChainDataSize` computation. -/
theorem romfsFileChainDataSize_succ_inv (t : RomFsTables) (fuel off s : Nat)
    (h : romfsFileChainDataSize t (fuel + 1) off = some s) :
    (off = ROMFS_VOID_ENTRY ∧ s = 0) ∨
      ∃ fe rest, off ≠ ROMFS_VOID_ENTRY ∧ t.files off = some fe ∧
        romfsFileChainDataSize t fuel fe.next_offset = some rest ∧
        s = fe.size + rest := by
  simp only [romfsFileChainDataSize] at h
  by_cases hv : off = ROMFS_VOID_ENTRY
  · rw [if_pos hv] at h
    simp only [Option.some_inj] at h
    exact Or.inl ⟨hv, h.symm⟩
  · rw [if_neg hv] at h
    cases hfe : t.files off with
    | none => simp only [hfe] at h; exact absurd h (by simp)
    | some fe =>
        simp only [hfe] at h
        cases hr : romfsFileChainDataSize t fuel fe.next_offset with
        | none => simp only [hr] at h; exact absurd h (by simp)
        | some rest =>
            simp only [hr] at h
            simp only [Option.some_inj] at h
            exact Or.inr ⟨fe, rest, hv, rfl, hr, h.symm⟩

/-- A directory chain starting at the sentinel sums to 0. -/
theorem romfsDirChainDataSize_void (t : RomFsTables) (fuel : Nat) :
    romfsDirChainDataSize t (fuel + 1) ROMFS_VOID_ENTRY = some 0 := by
  simp [romfsDirChainDataSize]

/-- Unfolding of `romfsDirChainDataSize` at a non-sentinel offset when every
step succeeds. -/
theorem romfsDirChainDataSize_succ_eq (t : RomFsTables) (fuel off : Nat)
    (d : RomFileSystemDirectoryEntry) (s1 rest : Nat)
    (hne : off ≠ ROMFS_VOID_ENTRY) (hd : t.dirs off = some d)
    (hs : romfsDirDataSize t fuel off = some s1)
    (hr : romfsDirChainDataSize t fuel d.next_offset = some rest) :
    romfsDirChainDataSize t (fuel + 1) off = some (s1 + rest) := by
  simp [romfsDirChainDataSize, hne, hd, hs, hr]

/-- Inversion of a successful `romfsDirChainDataSize` computation. -/
theorem romfsDirChainDataSize_succ_inv (t : RomFsTables) (fuel off s : Nat)
    (h : romfsDirChainDataSize t (fuel + 1) off = some s) :
    (off = ROMFS_VOID_ENTRY ∧ s = 0) ∨
      ∃ d s1 rest, off ≠ ROMFS_VOID_ENTRY ∧ t.dirs off = some d ∧
        romfsDirDataSize t fuel off = some s1 ∧
        romfsDirChainDataSize t fuel d.next_offset = some rest ∧
        s = s1 + rest := by
  simp only [romfsDirChainDataSize] at h
  by_cases hv : off = ROMFS_VOID_ENTRY
  · rw [if_pos hv] at h
    simp only [Option.some_inj] at h
    exact Or.inl ⟨hv, h.symm⟩
  · rw [if_neg hv] at h
    cases hd : t.dirs off with
    | none => simp only [hd] at h; exact absurd h (by simp)
    | some d =>
        simp only [hd] at h
        cases hs : romfsDirDataSize t fuel off with
        | none => simp only [hs] at h; exact absurd h (by simp)
        | some s1 =>
            simp only [hs] at h
            cases hr : romfsDirChainDataSize t fuel d.next_offset with
            | none => simp only [hr] at h; exact absurd h (by simp)
            | some rest =>
                simp only [hr] at h
                simp only [Option.some_inj] at h
                exact Or.inr ⟨d, s1, rest, hv, rfl, rfl, hr, h.symm⟩

/-- Success of the size accountant is preserved when one unit of fuel is
added, for all three mutually recursive traversals at once. -/
theorem romfsDataSize_mono_succ (t : RomFsTables) :
    ∀ fuel : Nat,
      (∀ off s, romfsDirDataSize t fuel off = some s →
        romfsDirDataSize t (fuel + 1) off = some s) ∧
      (∀ off s, romfsFileChainDataSize t fuel off = some s →
        romfsFileChainDataSize t (fuel + 1) off = some s) ∧
      (∀ off s, romfsDirChainDataSize t fuel off = some s →
        romfsDirChainDataSize t (fuel + 1) off = some s) := by
  intro fuel
  induction fuel with
  | zero =>
      refine ⟨?_, ?_, ?_⟩ <;> intro off s h <;>
        simp [romfsDirDataSize, romfsFileChainDataSize,
          romfsDirChainDataSize] at h
  | succ n ih =>
      obtain ⟨ihd, ihf, ihc⟩ := ih
      refine ⟨?_, ?_, ?_⟩
      · intro off s h
        obtain ⟨d, fs, ds, hd, hf, hc, hs⟩ :=
          romfsDirDataSize_succ_inv t n off s h
        subst hs
        exact romfsDirDataSize_succ_eq t (n + 1) off d fs ds hd
          (ihf _ _ hf) (ihc _ _ hc)
      · intro off s h
        rcases romfsFileChainDataSize_succ_inv t n off s h with
          ⟨hv, hs⟩ | ⟨fe, rest, hv, hfe, hr, hs⟩
        · subst hv; subst hs; exact romfsFileChainDataSize_void t (n + 1)
        · subst hs
          exact romfsFileChainDataSize_succ_eq t (n + 1) off fe rest hv hfe
            (ihf _ _ hr)
      · intro off s h
        rcases romfsDirChainDataSize_succ_inv t n off s h with
          ⟨hv, hs⟩ | ⟨d, s1, rest, hv, hd, hds, hr, hs⟩
        · subst hv; subst hs; exact romfsDirChainDataSize_void t (n + 1)
        · subst hs
          exact romfsDirChainDataSize_succ_eq t (n + 1) off d s1 rest hv hd
            (ihd _ _ hds) (ihc _ _ hr)

/-- Fuel monotonicity for `romfsDirDataSize`. -/
theorem romfsDirDataSize_mono (t : RomFsTables) {f1 f2 : Nat}
    (hle : f1 ≤ f2) (off s : Nat)
    (h : romfsDirDataSize t f1 off = some s) :
    romfsDirDataSize t f2 off = some s := by
  induction f2, hle using Nat.le_induction with
  | base => exact h
  | succ m hm ih => exact (romfsDataSize_mono_succ t m).1 _ _ ih

/-- Fuel monotonicity for `romfsFileChainDataSize`. -/
theorem romfsFileChainDataSize_mono (t : RomFsTables) {f1 f2 : Nat}
    (hle : f1 ≤ f2) (off s : Nat)
    (h : romfsFileChainDataSize t f1 off = some s) :
    romfsFileChainDataSize t f2 off = some s := by
  induction f2, hle using Nat.le_induction with
  | base => exact h
  | succ m hm ih => exact (romfsDataSize_mono_succ t m).2.1 _ _ ih

/-- Fuel monotonicity for `romfsDirChainDataSize`. -/
theorem romfsDirChainDataSize_mono (t : RomFsTables) {f1 f2 : Nat}
    (hle : f1 ≤ f2) (off s : Nat)
    (h : romfsDirChainDataSize t f1 off = some s) :
    romfsDirChainDataSize t f2 off = some s := by
  induction f2, hle using Nat.le_induction with
  | base => exact h
  | succ m hm ih => exact (romfsDataSize_mono_succ t m).2.2 _ _ ih

/-- Adequacy for file chains: a represented file chain is summed exactly by
the accountant, given some amount of fuel. -/
theorem repFileChain_dataSize {t : RomFsTables} {off : Nat} {fs : List Nat}
    (h : RepFileChain t off fs) :
    ∃ fuel, romfsFileChainDataSize t fuel off = some fs.sum := by
  induction h with
  | nil => exact ⟨1, romfsFileChainDataSize_void t 0⟩
  | cons off fe rest hne hfe _ ih =>
      obtain ⟨fuel, hfuel⟩ := ih
      exact ⟨fuel + 1, by
        rw [List.sum_cons]
        exact romfsFileChainDataSize_succ_eq _ fuel off fe rest.sum hne hfe hfuel⟩

/-- Adequacy for directories and directory chains, by strong induction on the
size of the abstract tree/forest. -/
theorem repDir_dataSize_aux :
    ∀ n : Nat,
      (∀ (t : RomFsTables) (off : Nat) (tr : RomTree), sizeOf tr ≤ n →
        RepDir t off tr →
        ∃ fuel, romfsDirDataSize t fuel off = some (romTreeSum tr)) ∧
      (∀ (t : RomFsTables) (off : Nat) (f : RomForest), sizeOf f ≤ n →
        RepDirChain t off f →
        ∃ fuel, romfsDirChainDataSize t fuel off = some (romForestSum f)) := by
  intro n
  induction n with
  | zero =>
      constructor
      · intro t off tr hsz _
        cases tr with
        | node fs f => simp at hsz
      · intro t off f hsz hrep
        cases hrep with
        | nil => exact ⟨1, by rw [romfsDirChainDataSize_void]; rfl⟩
        | cons off d tr rest hne hd hrepd hrest => simp at hsz
  | succ n ih =>
      obtain ⟨ihd, ihc⟩ := ih
      constructor
      · intro t off tr hsz hrep
        cases hrep with
        | mk off d fs f hd hfc hdc =>
            have hszf : sizeOf f ≤ n := by simp at hsz; omega
            obtain ⟨f1, h1⟩ := repFileChain_dataSize hfc
            obtain ⟨f2, h2⟩ := ihc t d.directory_offset f hszf hdc
            refine ⟨max f1 f2 + 1, ?_⟩
            have h1' := romfsFileChainDataSize_mono t (le_max_left f1 f2) _ _ h1
            have h2' := romfsDirChainDataSize_mono t (le_max_right f1 f2) _ _ h2
            rw [show romTreeSum (RomTree.node fs f) = fs.sum + romForestSum f
              from rfl]
            exact romfsDirDataSize_succ_eq t _ off d _ _ hd h1' h2'
      · intro t off f hsz hrep
        cases hrep with
        | nil => exact ⟨1, by rw [romfsDirChainDataSize_void]; rfl⟩
        | cons off d tr rest hne hd hrepd hrest =>
            have hszt : sizeOf tr ≤ n := by simp at hsz; omega
            have hszr : sizeOf rest ≤ n := by simp at hsz; omega
            obtain ⟨f1, h1⟩ := ihd t off tr hszt hrepd
            obtain ⟨f2, h2⟩ := ihc t d.next_offset rest hszr hrest
            refine ⟨max f1 f2 + 1, ?_⟩
            have h1' := romfsDirDataSize_mono t (le_max_left f1 f2) _ _ h1
            have h2' := romfsDirChainDataSize_mono t (le_max_right f1 f2) _ _ h2
            rw [show romForestSum (RomForest.cons tr rest) =
              romTreeSum tr + romForestSum rest from rfl]
            exact romfsDirChainDataSize_succ_eq t _ off d _ _ hne hd h1' h2'

/-- Adequacy for a represented directory: the accountant computes exactly the
tree sum, given some amount of fuel. -/
theorem repDir_dataSize {t : RomFsTables} {off : Nat} {tr : RomTree}
    (h : RepDir t off tr) :
    ∃ fuel, romfsDirDataSize t fuel off = some (romTreeSum tr) :=
  (repDir_dataSize_aux (sizeOf tr)).1 t off tr le_rfl h

/-- C1: for every initialized context (non-null context with loaded tables)
and every candidate u32 byte offset `o`, `romfsGetDirectoryEntry` (resp.
`romfsGetFileEntry`) returns NULL exactly when `o` plus the 24-byte
(resp. 32-byte) fixed record size exceeds the table size, and otherwise
returns the read-only view anchored at `table_base + o`. -/
theorem romfs_entry_resolution_bounds (c : RomFileSystemContext)
    (bd bf o : Nat) (hd : c.dir_table = some bd) (hf : c.file_table = some bf)
    (ho : o < 2 ^ 32) :
    (romfsGetDirectoryEntry (some c) o = none ↔
      o + sizeof_RomFileSystemDirectoryEntry > c.dir_table_size) ∧
    (o + sizeof_RomFileSystemDirectoryEntry ≤ c.dir_table_size →
      romfsGetDirectoryEntry (some c) o = some (bd + o)) ∧
    (romfsGetFileEntry (some c) o = none ↔
      o + sizeof_RomFileSystemFileEntry > c.file_table_size) ∧
    (o + sizeof_RomFileSystemFileEntry ≤ c.file_table_size →
      romfsGetFileEntry (some c) o = some (bf + o)) := by
  have hmod : o % 2 ^ 32 = o := Nat.mod_eq_of_lt ho
  refine ⟨?_, ?_, ?_, ?_⟩
  · simp only [romfsGetDirectoryEntry, hd, hmod]
    split_ifs with hcond
    · simpa using hcond
    · simp [hcond]
  · intro h1
    simp only [romfsGetDirectoryEntry, hd, hmod]
    rw [if_neg (show ¬(o + sizeof_RomFileSystemDirectoryEntry >
      c.dir_table_size) by omega)]
  · simp only [romfsGetFileEntry, hf, hmod]
    split_ifs with hcond
    · simpa using hcond
    · simp [hcond]
  · intro h1
    simp only [romfsGetFileEntry, hf, hmod]
    rw [if_neg (show ¬(o + sizeof_RomFileSystemFileEntry >
      c.file_table_size) by omega)]

/-- Witness for C1 on a concrete context: offset 0 resolves in both 24- and
32-byte tables, and offset 1 is rejected by both bounds checks. -/
theorem romfs_entry_resolution_bounds_witness :
    romfsGetDirectoryEntry (some boundsCtx) 0 = some 1000 ∧
    romfsGetFileEntry (some boundsCtx) 0 = some 2000 ∧
    romfsGetDirectoryEntry (some boundsCtx) 1 = none ∧
    romfsGetFileEntry (some boundsCtx) 1 = none := by
  have h0 := romfs_entry_resolution_bounds boundsCtx 1000 2000 0 rfl rfl
    (by decide)
  have h1 := romfs_entry_resolution_bounds boundsCtx 1000 2000 1 rfl rfl
    (by decide)
  exact ⟨h0.2.1 (by decide), h0.2.2.2 (by decide),
    h1.1.mpr (by decide), h1.2.2.1.mpr (by decide)⟩

/-- C2 counterexample: the claim "the sentinel offset 0xFFFFFFFF resolves to
NULL for any nonzero 64-bit table size" is false on the code: with an
initialized context whose tables have size 2^33 (nonzero and representable in
64 bits), the sentinel passes the fixed-record bounds check in both resolvers
and a non-NULL view is returned. -/
theorem romfs_sentinel_not_universal :
    sentinelCtx.dir_table_size ≠ 0 ∧ sentinelCtx.file_table_size ≠ 0 ∧
    romfsGetDirectoryEntry (some sentinelCtx) 0xFFFFFFFF ≠ none ∧
    romfsGetFileEntry (some sentinelCtx) 0xFFFFFFFF ≠ none := by
  refine ⟨by decide, by decide, ?_, ?_⟩
  · show ¬romfsGetDirectoryEntry (some sentinelCtx) 0xFFFFFFFF = none
    simp [romfsGetDirectoryEntry, sentinelCtx,
      sizeof_RomFileSystemDirectoryEntry]
  · show ¬romfsGetFileEntry (some sentinelCtx) 0xFFFFFFFF = none
    simp [romfsGetFileEntry, sentinelCtx, sizeof_RomFileSystemFileEntry]

/-- C2 (amended): for every context whose nonzero directory/file table size
is below `0xFFFFFFFF + fixed_record_size` (as every realistic table size is),
resolving the sentinel offset 0xFFFFFFFF returns NULL in both resolvers. -/
theorem romfs_sentinel_resolves_to_none (c : RomFileSystemContext)
    (hdz : c.dir_table_size ≠ 0) (hfz : c.file_table_size ≠ 0)
    (hds : c.dir_table_size <
      ROMFS_VOID_ENTRY + sizeof_RomFileSystemDirectoryEntry)
    (hfs : c.file_table_size <
      ROMFS_VOID_ENTRY + sizeof_RomFileSystemFileEntry) :
    romfsGetDirectoryEntry (some c) ROMFS_VOID_ENTRY = none ∧
    romfsGetFileEntry (some c) ROMFS_VOID_ENTRY = none := by
  have hmod : ROMFS_VOID_ENTRY % 2 ^ 32 = ROMFS_VOID_ENTRY := by decide
  constructor
  · cases hdt : c.dir_table with
    | none => simp [romfsGetDirectoryEntry, hdt]
    | some base =>
        have hgt : ROMFS_VOID_ENTRY % 2 ^ 32 +
            sizeof_RomFileSystemDirectoryEntry > c.dir_table_size := by
          rw [hmod]; omega
        simp only [romfsGetDirectoryEntry, hdt, if_pos hgt]
  · cases hft : c.file_table with
    | none => simp [romfsGetFileEntry, hft]
    | some base =>
        have hgt : ROMFS_VOID_ENTRY % 2 ^ 32 +
            sizeof_RomFileSystemFileEntry > c.file_table_size := by
          rw [hmod]; omega
        simp only [romfsGetFileEntry, hft, if_pos hgt]

/-- Witness for the amended C2 on a concrete context with nonzero realistic
table sizes. -/
theorem romfs_sentinel_resolves_to_none_witness :
    romfsGetDirectoryEntry (some boundsCtx) ROMFS_VOID_ENTRY = none ∧
    romfsGetFileEntry (some boundsCtx) ROMFS_VOID_ENTRY = none :=
  romfs_sentinel_resolves_to_none boundsCtx (by decide) (by decide)
    (by decide) (by decide)

/-- C3: resolution does not validate the variable-length name. For every
initialized context and offset whose fixed record fits in the table but whose
fixed record plus name tail does not, both resolvers still return the entry
view, while the separate caller-side name bounds check fails for that entry. -/
theorem romfs_resolution_skips_name_validation (c : RomFileSystemContext)
    (bd bf o nl : Nat) (hd : c.dir_table = some bd)
    (hf : c.file_table = some bf) (ho : o < 2 ^ 32)
    (h1 : o + sizeof_RomFileSystemDirectoryEntry ≤ c.dir_table_size)
    (h2 : o + sizeof_RomFileSystemDirectoryEntry + nl > c.dir_table_size)
    (h3 : o + sizeof_RomFileSystemFileEntry ≤ c.file_table_size)
    (h4 : o + sizeof_RomFileSystemFileEntry + nl > c.file_table_size) :
    romfsGetDirectoryEntry (some c) o = some (bd + o) ∧
    romfsNameBoundsCheck sizeof_RomFileSystemDirectoryEntry o nl
      c.dir_table_size = false ∧
    romfsGetFileEntry (some c) o = some (bf + o) ∧
    romfsNameBoundsCheck sizeof_RomFileSystemFileEntry o nl
      c.file_table_size = false := by
  have hmod : o % 2 ^ 32 = o := Nat.mod_eq_of_lt ho
  refine ⟨?_, ?_, ?_, ?_⟩
  · simp only [romfsGetDirectoryEntry, hd, hmod]
    rw [if_neg (show ¬(o + sizeof_RomFileSystemDirectoryEntry >
      c.dir_table_size) by omega)]
  · simp only [romfsNameBoundsCheck, decide_eq_false_iff_not, not_le]
    omega
  · simp only [romfsGetFileEntry, hf, hmod]
    rw [if_neg (show ¬(o + sizeof_RomFileSystemFileEntry >
      c.file_table_size) by omega)]
  · simp only [romfsNameBoundsCheck, decide_eq_false_iff_not, not_le]
    omega

/-- Witness for C3 on a concrete context: offset 0 with a 100-byte name in a
24-byte directory table and a 32-byte file table. -/
theorem romfs_resolution_skips_name_validation_witness :
    romfsGetDirectoryEntry (some boundsCtx) 0 = some 1000 ∧
    romfsNameBoundsCheck sizeof_RomFileSystemDirectoryEntry 0 100
      boundsCtx.dir_table_size = false ∧
    romfsGetFileEntry (some boundsCtx) 0 = some 2000 ∧
    romfsNameBoundsCheck sizeof_RomFileSystemFileEntry 0 100
      boundsCtx.file_table_size = false := by
  have h := romfs_resolution_skips_name_validation boundsCtx 1000 2000 0 100
    rfl rfl (by decide) (by decide) (by decide) (by decide) (by decide)
  simpa using h

/-- C9: `romfsFreeContext` is idempotent. A second call on an
already-released context frees no buffer and leaves the context in the same
all-released state produced by the first call. -/
theorem romfsFreeContext_idempotent (ctx : Option RomFileSystemContext) :
    (romfsFreeContext (romfsFreeContext ctx).1).2 = [] ∧
    (romfsFreeContext (romfsFreeContext ctx).1).1 = (romfsFreeContext ctx).1 := by
  cases ctx with
  | none => exact ⟨rfl, rfl⟩
  | some c => exact ⟨rfl, rfl⟩

/-- C10: defensive NULL handling at the public interface. Both resolvers
return NULL for every offset when given a NULL context or a context whose
corresponding table pointer is NULL, and `romfsFreeContext` on a NULL context
pointer returns immediately, freeing nothing and changing nothing. -/
theorem romfs_defensive_null_handling (o : Nat) (c : RomFileSystemContext) :
    romfsGetDirectoryEntry none o = none ∧
    romfsGetFileEntry none o = none ∧
    (c.dir_table = none → romfsGetDirectoryEntry (some c) o = none) ∧
    (c.file_table = none → romfsGetFileEntry (some c) o = none) ∧
    romfsFreeContext none = (none, []) := by
  refine ⟨rfl, rfl, ?_, ?_, rfl⟩
  · intro h; simp [romfsGetDirectoryEntry, h]
  · intro h; simp [romfsGetFileEntry, h]

/-- Witness for C10 on a concrete offset and the zeroed (already released)
context, whose table pointers are NULL. -/
theorem romfs_defensive_null_handling_witness :
    romfsGetDirectoryEntry (some zeroedRomFileSystemContext) 5 = none ∧
    romfsGetFileEntry (some zeroedRomFileSystemContext) 5 = none ∧
    romfsGetDirectoryEntry none 5 = none :=
  ⟨(romfs_defensive_null_handling 5 zeroedRomFileSystemContext).2.2.1 rfl,
    (romfs_defensive_null_handling 5 zeroedRomFileSystemContext).2.2.2.1 rfl,
    (romfs_defensive_null_handling 5 zeroedRomFileSystemContext).1⟩

/-- C4: header parsing is total over the two layout constants. If the legacy
32-bit header-size field equals ROMFS_OLD_HEADER_SIZE the header is parsed as
the legacy layout (current-layout parsing is never attempted, witnessed by the
`old_format` tag); otherwise if the 64-bit header-size field equals
ROMFS_HEADER_SIZE it is parsed as the current layout; any other value fails
with FormatError. -/
theorem romfsParseHeader_total (b : Nat → Nat) :
    (readU32LE b 0 = ROMFS_OLD_HEADER_SIZE →
      ∃ info, romfsParseHeader b = .ok (.old_format, info) ∧
        info.header_size = readU32LE b 0) ∧
    (readU32LE b 0 ≠ ROMFS_OLD_HEADER_SIZE →
      readU64LE b 0 = ROMFS_HEADER_SIZE →
      ∃ info, romfsParseHeader b = .ok (.cur_format, info) ∧
        info.header_size = readU64LE b 0) ∧
    (readU32LE b 0 ≠ ROMFS_OLD_HEADER_SIZE →
      readU64LE b 0 ≠ ROMFS_HEADER_SIZE →
      romfsParseHeader b = .error .FormatError) := by
  refine ⟨?_, ?_, ?_⟩
  · intro h
    exact ⟨_, by simp only [romfsParseHeader, if_pos h]; rfl, rfl⟩
  · intro h1 h2
    exact ⟨_, by simp only [romfsParseHeader, if_neg h1, if_pos h2]; rfl, rfl⟩
  · intro h1 h2
    simp only [romfsParseHeader, if_neg h1, if_neg h2]

/-- Witness for C4 on three concrete byte regions: a legacy header, a current
header, and a header matching neither constant. -/
theorem romfsParseHeader_total_witness :
    (∃ info, romfsParseHeader legacyHeaderBytes = .ok (.old_format, info) ∧
      info.header_size = readU32LE legacyHeaderBytes 0) ∧
    (∃ info, romfsParseHeader currentHeaderBytes = .ok (.cur_format, info) ∧
      info.header_size = readU64LE currentHeaderBytes 0) ∧
    romfsParseHeader zeroHeaderBytes = .error .FormatError :=
  ⟨(romfsParseHeader_total legacyHeaderBytes).1 (by decide),
    (romfsParseHeader_total currentHeaderBytes).2.1 (by decide) (by decide),
    (romfsParseHeader_total zeroHeaderBytes).2.2 (by decide) (by decide)⟩

/-- C5: payload read range contract. A request with
`local_offset + read_size ≤ entry.size` succeeds, issues exactly one
delegated read, and returns exactly `read_size` bytes taken from absolute
position `region_offset + body_offset + entry.offset + local_offset`; a
request with `local_offset + read_size > entry.size` fails with RangeError
and performs no delegated read. -/
theorem romfsReadFileEntryData_range_contract (reader : Nat → Nat)
    (ctx : RomFileSystemContext) (file_entry : RomFileSystemFileEntry)
    (read_size local_offset : Nat) :
    (local_offset + read_size ≤ file_entry.size →
      ∃ bytes,
        romfsReadFileEntryData reader ctx file_entry read_size local_offset =
          (.ok bytes,
            [{ off := ctx.offset + ctx.body_offset + file_entry.offset +
                local_offset, len := read_size }]) ∧
        bytes.length = read_size ∧
        ∀ i, i < read_size → bytes[i]? =
          some (reader (ctx.offset + ctx.body_offset + file_entry.offset +
            local_offset + i))) ∧
    (local_offset + read_size > file_entry.size →
      romfsReadFileEntryData reader ctx file_entry read_size local_offset =
        (.error .RangeError, [])) := by
  constructor
  · intro h
    refine ⟨(List.range read_size).map fun i =>
      reader (ctx.offset + ctx.body_offset + file_entry.offset +
        local_offset + i), ?_, ?_, ?_⟩
    · simp only [romfsReadFileEntryData, if_pos h]
    · simp
    · intro i hi
      simp [List.getElem?_map, List.getElem?_range hi]
  · intro h
    simp only [romfsReadFileEntryData,
      if_neg (show ¬(local_offset + read_size ≤ file_entry.size) by omega)]

/-- Witness for C5: reading 2 bytes at local offset 3 of a 10-byte file
succeeds with the two bytes at the computed absolute position, and reading 20
bytes at local offset 3 fails with RangeError and no delegated read. -/
theorem romfsReadFileEntryData_range_contract_witness :
    (∃ bytes,
      romfsReadFileEntryData (fun a => a) boundsCtx sampleFileEntry 2 3 =
        (.ok bytes,
          [{ off := boundsCtx.offset + boundsCtx.body_offset +
              sampleFileEntry.offset + 3, len := 2 }]) ∧
      bytes.length = 2 ∧
      ∀ i, i < 2 → bytes[i]? = some (boundsCtx.offset + boundsCtx.body_offset +
        sampleFileEntry.offset + 3 + i)) ∧
    romfsReadFileEntryData (fun a => a) boundsCtx sampleFileEntry 20 3 =
      (.error .RangeError, []) :=
  ⟨(romfsReadFileEntryData_range_contract (fun a => a) boundsCtx
      sampleFileEntry 2 3).1 (by decide),
    (romfsReadFileEntryData_range_contract (fun a => a) boundsCtx
      sampleFileEntry 20 3).2 (by decide)⟩

/-- C6: initialization table-size validation. A zero directory-entry table
size fails with FormatError before any delegated read (in particular before
any file-table read) and yields no tables; a zero file-entry table size is
accepted, the context initializing successfully when both delegated reads
succeed. -/
theorem romfsLoadTables_size_validation
    (reader : Nat → Nat → Option (List Nat))
    (hdr : RomFileSystemInformation) :
    (hdr.directory_entry_size = 0 →
      romfsLoadTables reader hdr = (.error .FormatError, [])) ∧
    (hdr.directory_entry_size ≠ 0 → hdr.file_entry_size = 0 →
      ∀ db fb,
        reader hdr.directory_entry_offset hdr.directory_entry_size = some db →
        reader hdr.file_entry_offset hdr.file_entry_size = some fb →
        romfsLoadTables reader hdr =
          (.ok { dir_table := db, file_table := fb },
            [{ off := hdr.directory_entry_offset,
               len := hdr.directory_entry_size },
             { off := hdr.file_entry_offset, len := hdr.file_entry_size }])) := by
  constructor
  · intro h
    simp only [romfsLoadTables, if_pos h]
  · intro h1 _ db fb hdb hfb
    simp only [romfsLoadTables, if_neg h1, hdb, hfb]

/-- Witness for C6: a header with zero directory-table size fails with
FormatError and no delegated read; a header with a 0x18-byte directory table
and a zero-sized file table (an archive with no files) initializes
successfully. -/
theorem romfsLoadTables_size_validation_witness :
    romfsLoadTables zeroReader zeroDirHdr = (.error .FormatError, []) ∧
    romfsLoadTables zeroReader noFilesHdr =
      (.ok { dir_table := List.replicate 0x18 0, file_table := [] },
        [{ off := 0x54, len := 0x18 }, { off := 0x70, len := 0 }]) :=
  ⟨(romfsLoadTables_size_validation zeroReader zeroDirHdr).1 rfl,
    (romfsLoadTables_size_validation zeroReader noFilesHdr).2 (by decide) rfl
      (List.replicate 0x18 0) [] rfl rfl⟩

/-- The sample archive represents the sample tree (root with files of sizes
10 and 20, one child directory with a file of size 5). -/
theorem sampleTables_rep : RepDir sampleTables 0 sampleTree := by
  refine RepDir.mk sampleTables 0 sampleRootDir [10, 20]
    (.cons (.node [5] .nil) .nil) rfl ?_ ?_
  · refine RepFileChain.cons sampleTables 64 sampleFileA [20] (by decide)
      rfl ?_
    refine RepFileChain.cons sampleTables 96 sampleFileB [] (by decide) rfl ?_
    exact RepFileChain.nil sampleTables
  · refine RepDirChain.cons sampleTables 100 sampleChildDir (.node [5] .nil)
      .nil (by decide) rfl ?_ ?_
    · refine RepDir.mk sampleTables 100 sampleChildDir [5] .nil rfl ?_ ?_
      · refine RepFileChain.cons sampleTables 128 sampleFileC [] (by decide)
          rfl ?_
        exact RepFileChain.nil sampleTables
      · exact RepDirChain.nil sampleTables
    · exact RepDirChain.nil sampleTables

/-- C7: size accounting is correct. For every well-formed acyclic archive
(one whose directory entry at `off` represents a finite abstract tree `tr`),
`romfsGetDirectoryDataSize` computes exactly the sum of the declared sizes of
all file entries in the subtree rooted at `off`; at the root offset 0 this is
`romfsGetTotalDataSize`; and a directory whose file chain starts at the
sentinel and which has no subdirectories yields 0. -/
theorem romfs_size_accounting_correct (t : RomFsTables) (off : Nat)
    (tr : RomTree) (h : RepDir t off tr) :
    (∃ fuel, romfsDirDataSize t fuel off = some (romTreeSum tr)) ∧
    (off = 0 → ∃ fuel, romfsTotalDataSize t fuel = some (romTreeSum tr)) ∧
    (tr = .node [] .nil → ∃ fuel, romfsDirDataSize t fuel off = some 0) := by
  refine ⟨repDir_dataSize h, ?_, ?_⟩
  · intro h0; subst h0; exact repDir_dataSize h
  · intro ht; subst ht
    have hz : romTreeSum (RomTree.node [] RomForest.nil) = 0 := rfl
    have := repDir_dataSize h
    rwa [hz] at this

/-- Witness for C7: on the sample archive the accountant returns exactly
10 + 20 + 5 = 35, the sum of the declared file sizes. -/
theorem romfs_size_accounting_correct_witness :
    ∃ fuel, romfsDirDataSize sampleTables fuel 0 = some 35 := by
  have h := (romfs_size_accounting_correct sampleTables 0 sampleTree
    sampleTables_rep).1
  have hsum : romTreeSum sampleTree = 35 := rfl
  rwa [hsum] at h

/-- C8: size-accounting error atomicity. If resolving the directory entry, a
file-chain entry, or a directory-chain entry fails at any point of the
traversal, or a sub-traversal aborts, the whole computation returns `none` —
never a partial sum reported as success. -/
theorem romfs_size_accounting_error_propagation (t : RomFsTables)
    (fuel off : Nat) :
    (t.dirs off = none → romfsDirDataSize t (fuel + 1) off = none) ∧
    (∀ d, t.dirs off = some d →
      romfsFileChainDataSize t fuel d.file_offset = none →
      romfsDirDataSize t (fuel + 1) off = none) ∧
    (∀ d, t.dirs off = some d →
      romfsDirChainDataSize t fuel d.directory_offset = none →
      romfsDirDataSize t (fuel + 1) off = none) ∧
    (off ≠ ROMFS_VOID_ENTRY → t.files off = none →
      romfsFileChainDataSize t (fuel + 1) off = none) ∧
    (off ≠ ROMFS_VOID_ENTRY → ∀ fe, t.files off = some fe →
      romfsFileChainDataSize t fuel fe.next_offset = none →
      romfsFileChainDataSize t (fuel + 1) off = none) ∧
    (off ≠ ROMFS_VOID_ENTRY → t.dirs off = none →
      romfsDirChainDataSize t (fuel + 1) off = none) ∧
    (off ≠ ROMFS_VOID_ENTRY → ∀ d, t.dirs off = some d →
      romfsDirDataSize t fuel off = none →
      romfsDirChainDataSize t (fuel + 1) off = none) ∧
    (off ≠ ROMFS_VOID_ENTRY → ∀ d, t.dirs off = some d →
      romfsDirChainDataSize t fuel d.next_offset = none →
      romfsDirChainDataSize t (fuel + 1) off = none) := by
  refine ⟨?_, ?_, ?_, ?_, ?_, ?_, ?_, ?_⟩
  · intro h
    simp [romfsDirDataSize, h]
  · intro d hd hfc
    simp [romfsDirDataSize, hd, hfc]
  · intro d hd hdc
    cases hf : romfsFileChainDataSize t fuel d.file_offset with
    | none => simp [romfsDirDataSize, hd, hf]
    | some fs => simp [romfsDirDataSize, hd, hf, hdc]
  · intro hne h
    simp [romfsFileChainDataSize, if_neg hne, h]
  · intro hne fe hfe hr
    simp [romfsFileChainDataSize, if_neg hne, hfe, hr]
  · intro hne h
    simp [romfsDirChainDataSize, if_neg hne, h]
  · intro hne d hd hs
    simp [romfsDirChainDataSize, if_neg hne, hd, hs]
  · intro hne d hd hr
    cases hs : romfsDirDataSize t fuel off with
    | none => simp [romfsDirChainDataSize, if_neg hne, hd, hs]
    | some s1 => simp [romfsDirChainDataSize, if_neg hne, hd, hs, hr]

/-- Witness for C8: on tables where every resolution fails, the directory
size, file-chain and directory-chain computations all abort with no sum. -/
theorem romfs_size_accounting_error_propagation_witness :
    romfsDirDataSize emptyTables 1 0 = none ∧
    romfsFileChainDataSize emptyTables 1 0 = none ∧
    romfsDirChainDataSize emptyTables 1 0 = none :=
  ⟨(romfs_size_accounting_error_propagation emptyTables 0 0).1 rfl,
    (romfs_size_accounting_error_propagation emptyTables 0 0).2.2.2.1
      (by decide) rfl,
    (romfs_size_accounting_error_propagation emptyTables 0 0).2.2.2.2.2.1
      (by decide) rfl⟩
